import Mathlib

/-!
Shallow embedding of the `rust-ledger-parser` lexical core
(`src/parser.rs`) and the fragments of its dependencies (`chrono`,
`rust_decimal`, `nom`) that the parser exercises.  Strings are embedded
as `List Char`; a nom parser of type
`CompleteStr -> IResult<CompleteStr, T>` becomes a Lean function
`List Char → Option (T × List Char)` returning the parsed value and the
remaining input (the `CompleteStr` wrapper means there is no
`Incomplete` case, so failure is a single `none`).
-/

namespace LedgerParser

/-- Embeds `is_digit` from `src/parser.rs`: `c >= '0' && c <= '9'`
(char comparisons in Rust are code-point comparisons). -/
def is_digit (c : Char) : Bool :=
  48 ≤ c.toNat && c.toNat ≤ 57

/-- Embeds `is_commodity_first_char` from `src/parser.rs`:
`c >= 'a' && c <= 'z' || c >= 'A' && c <= 'Z' || c == '$' || c > 0x7F as char`. -/
def is_commodity_first_char (c : Char) : Bool :=
  (97 ≤ c.toNat && c.toNat ≤ 122) || (65 ≤ c.toNat && c.toNat ≤ 90)
    || c.toNat == 36 || 127 < c.toNat

/-- Embeds `is_commodity_char` from `src/parser.rs` (same class as
`is_commodity_first_char`, kept as a separate definition as in the source). -/
def is_commodity_char (c : Char) : Bool :=
  (97 ≤ c.toNat && c.toNat ≤ 122) || (65 ≤ c.toNat && c.toNat ≤ 90)
    || c.toNat == 36 || 127 < c.toNat

/-- Embeds `is_white_char` from `src/parser.rs`:
`c == ' ' || c == '\t' || c == '\r' || c == '\n'`; this is also exactly the
whitespace class `" \t\r\n"` used by nom'e `ws!` combinator. -/
def is_white_char (c : Char) : Bool :=
  c.toNat == 32 || c.toNat == 9 || c.toNat == 13 || c.toNat == 10

/-- Embeds nom's `take_while_m_n!(m, n, p)` on `CompleteStr`: consume the
longest prefix of characters satisfying `p`, capped at `n` characters; fail
when fewer than `m` characters were taken. -/
def take_while_m_n (m n : Nat) (p : Char → Bool) (cs : List Char) :
    Option (List Char × List Char) :=
  let t := (cs.take n).takeWhile p
  if m ≤ t.length then some (t, cs.drop t.length) else none

/-- Numeric value of a digit string, most significant digit first. -/
def nat_digits (cs : List Char) : Nat :=
  cs.foldl (fun acc c => acc * 10 + (c.toNat - 48)) 0

/-- Embeds `i32::from_str` restricted to the all-digit inputs that
`take_while_m_n!(n, n, is_digit)` can produce (at most 4 digits in this
program, so the `i32` overflow bound is inert but kept for faithfulness). -/
def i32_from_str (cs : List Char) : Option Int :=
  if cs ≠ [] ∧ (∀ c ∈ cs, is_digit c = true) ∧ nat_digits cs ≤ 2147483647 then
    some ((nat_digits cs : Int))
  else
    none

/-- Embeds `numberN(n)` from `src/parser.rs`:
`map_res!(take_while_m_n!(n, n, is_digit), i32::from_str)`. -/
def numberN (n : Nat) (cs : List Char) : Option (Int × List Char) :=
  (take_while_m_n n n is_digit cs).bind fun p =>
    (i32_from_str p.1).map fun v => (v, p.2)

/-- Embeds `alt!(tag!("-") | tag!("/") | tag!("."))` from
`parse_date_internal`: consume one separator character. -/
def date_sep (cs : List Char) : Option (Char × List Char) :=
  match cs with
  | [] => none
  | c :: rest => if c == '-' || c == '/' || c == '.' then some (c, rest) else none

/-- Embeds `parse_date_internal` from `src/parser.rs`: 4 digits, a
separator, 2 digits, a separator, 2 digits, yielding the `(year, month, day)`
triple of `i32` values. -/
def parse_date_internal (cs : List Char) : Option ((Int × Int × Int) × List Char) :=
  (numberN 4 cs).bind fun p1 =>
    (date_sep p1.2).bind fun p2 =>
      (numberN 2 p2.2).bind fun p3 =>
        (date_sep p3.2).bind fun p4 =>
          (numberN 2 p4.2).map fun p5 => ((p1.1, p3.1, p5.1), p5.2)

/-- Embeds `chrono::NaiveDate` values as the calendar triple; two valid
dates are equal in chrono exactly when their triples are equal. -/
structure NaiveDate where
  year : Int
  month : Int
  day : Int
deriving DecidableEq

/-- Proleptic-Gregorian leap-year rule used by chrono. -/
def is_leap_year (y : Int) : Bool :=
  y % 4 == 0 && (y % 100 != 0 || y % 400 == 0)

/-- Number of days of month `m` of year `y` in the proleptic Gregorian
calendar (chrono's calendar). -/
def days_in_month (y m : Int) : Int :=
  if m == 2 then (if is_leap_year y then 29 else 28)
  else if m == 4 || m == 6 || m == 9 || m == 11 then 30
  else 31

/-- Embeds `chrono::NaiveDate::from_ymd_opt` (external dependency of
`parse_date`): succeeds exactly on real proleptic-Gregorian calendar dates
within chrono's representable year range. -/
def from_ymd_opt (y m d : Int) : Option NaiveDate :=
  if 1 ≤ m ∧ m ≤ 12 ∧ 1 ≤ d ∧ d ≤ days_in_month y m ∧ -262144 ≤ y ∧ y ≤ 262143 then
    some ⟨y, m, d⟩
  else
    none

/-- Number of bytes of the UTF-8 encoding of `c`, as Rust's
`char::len_utf8` computes it. -/
def len_utf8 (c : Char) : Nat :=
  if c.toNat < 128 then 1
  else if c.toNat < 2048 then 2
  else if c.toNat < 65536 then 3
  else 4

/-- Embeds the Rust byte-slice `&s[0..n]` on a UTF-8 string viewed as its
character list: returns the characters making up the first `n` bytes, or
`none` exactly when Rust would panic (fewer than `n` bytes, or byte `n`
not on a character boundary). -/
def byte_take : Nat → List Char → Option (List Char)
  | 0, _ => some []
  | _ + 1, [] => none
  | n + 1, c :: rest =>
    if len_utf8 c ≤ n + 1 then
      match byte_take (n + 1 - len_utf8 c) rest with
      | some t => some (c :: t)
      | none => none
    else none

/-- Result of `parse_date` from `src/parser.rs`.  `synError` is the
propagated nom error of `parse_date_internal`; `nonExistingDate span` is the
custom error built with `error_position!` over the byte slice
`&text.0[0..10]`; `panicked` marks the (unreachable) case in which that
byte slice would panic. -/
inductive DateResult where
  | ok (d : NaiveDate) (rest : List Char)
  | synError
  | nonExistingDate (span : List Char)
  | panicked
deriving DecidableEq

/-- Embeds `parse_date` from `src/parser.rs`: structural parse via
`parse_date_internal`, then calendar validation via
`NaiveDate::from_ymd_opt`; on validation failure the error carries the
byte slice `&text.0[0..10]` of the original input.  The `i32 as u32` casts
on month and day are the identity here because `numberN 2` only produces
values in `0..=99`. -/
def parse_date (cs : List Char) : DateResult :=
  match parse_date_internal cs with
  | none => .synError
  | some ((y, m, d), rest) =>
    match from_ymd_opt y m d with
    | some date => .ok date rest
    | none =>
      match byte_take 10 cs with
      | some span => .nonExistingDate span
      | none => .panicked

/-- Embeds `rust_decimal::Decimal` as its unscaled integer value together
with its scale (number of fractional digits); the represented rational is
`mantissa / 10 ^ scale`. -/
structure Decimal where
  mantissa : Int
  scale : Nat
deriving DecidableEq

/-- Rational value represented by a `Decimal`. -/
def Decimal.toRat (d : Decimal) : ℚ :=
  (d.mantissa : ℚ) / (10 : ℚ) ^ d.scale

/-- Unscaled magnitude and scale read from an unsigned decimal digit
string of the shape `digits [ '.' digits ]` (the only shapes
`parse_quantity` recognizes), with `rust_decimal`'s 96-bit mantissa and
28-digit scale limits. -/
def decimal_magnitude (cs : List Char) : Option (Nat × Nat) :=
  let ip := cs.takeWhile is_digit
  if ip.length = 0 then none
  else
    match cs.drop ip.length with
    | [] =>
      if nat_digits ip < 2 ^ 96 then some (nat_digits ip, 0) else none
    | '.' :: fr =>
      if fr ≠ [] ∧ (∀ c ∈ fr, is_digit c = true) ∧ fr.length ≤ 28
          ∧ nat_digits (ip ++ fr) < 2 ^ 96 then
        some (nat_digits (ip ++ fr), fr.length)
      else none
    | _ => none

/-- Embeds `rust_decimal::Decimal::from_str` (external dependency)
restricted to the inputs `parse_quantity` can pass it: an optional minus
sign, then digits with an optional fractional part.  The scale is the
number of fractional digits, kept as written (neither reduced nor
expanded). -/
def decimal_from_str (cs : List Char) : Option Decimal :=
  match cs with
  | '-' :: rest => (decimal_magnitude rest).map (fun p => ⟨-(p.1 : Int), p.2⟩)
  | _ => (decimal_magnitude cs).map (fun p => ⟨(p.1 : Int), p.2⟩)

/-- Embeds `opt!(tag!("-"))`: whether a leading minus sign is present,
and the input after it. -/
def opt_minus (cs : List Char) : Bool × List Char :=
  match cs with
  | '-' :: rest => (true, rest)
  | _ => (false, cs)

/-- Number of characters consumed by `tuple!(digit, opt!(tuple!(tag!("."), digit)))`
(the body of `parse_quantity` after the optional sign): one-or-more digits,
then optionally a dot followed by one-or-more digits (the optional group
is skipped entirely when no digit follows the dot). -/
def quantity_body_len (cs : List Char) : Option Nat :=
  let d1 := cs.takeWhile is_digit
  if d1.length = 0 then none
  else
    match cs.drop d1.length with
    | '.' :: r2 =>
      let d2 := r2.takeWhile is_digit
      if d2.length = 0 then some d1.length
      else some (d1.length + 1 + d2.length)
    | _ => some d1.length

/-- Embeds `parse_quantity` from `src/parser.rs`:
`map_res!(recognize!(tuple!(opt!(tag!("-")), digit, opt!(tuple!(tag!("."), digit)))), Decimal::from_str)`.
The recognized prefix (sign included) is handed to `Decimal::from_str`. -/
def parse_quantity (cs : List Char) : Option (Decimal × List Char) :=
  let n1 := cond (opt_minus cs).1 1 0
  (quantity_body_len (cs.drop n1)).bind fun k =>
    (decimal_from_str (cs.take (n1 + k))).map fun dec => (dec, cs.drop (n1 + k))

/-- Embeds `string_between_quotes` from `src/parser.rs`:
`delimited!(char!('"'), is_not!("\""), char!('"'))`; `is_not!` requires at
least one character, so the empty quoted string does not match. -/
def string_between_quotes (cs : List Char) : Option (List Char × List Char) :=
  match cs with
  | '\"' :: cs1 =>
    let t := cs1.takeWhile (fun c => c ≠ '\"')
    if t.length = 0 then none
    else
      match cs1.drop t.length with
      | '\"' :: cs2 => some (t, cs2)
      | _ => none
  | _ => none

/-- Embeds `commodity_without_quotes` from `src/parser.rs`: exactly one
character satisfying `is_commodity_first_char`, then zero or more
characters satisfying `is_commodity_char`. -/
def commodity_without_quotes (cs : List Char) : Option (List Char × List Char) :=
  match take_while_m_n 1 1 is_commodity_first_char cs with
  | none => none
  | some (c1, cs1) =>
    let t := cs1.takeWhile is_commodity_char
    some (c1 ++ t, cs1.drop t.length)

/-- Embeds `parse_commodity` from `src/parser.rs`:
`alt!(string_between_quotes | commodity_without_quotes)` (ordered choice). -/
def parse_commodity (cs : List Char) : Option (List Char × List Char) :=
  match string_between_quotes cs with
  | some r => some r
  | none => commodity_without_quotes cs

/-- Embeds `CommodityPosition` from `src/parser.rs`. -/
inductive CommodityPosition where
  | Left
  | Right
deriving DecidableEq

/-- Embeds `Commodity` from `src/parser.rs` (the name `String` is embedded
as its character list). -/
structure Commodity where
  name : List Char
  position : CommodityPosition
deriving DecidableEq

/-- Embeds `Amount` from `src/parser.rs`. -/
structure Amount where
  quantity : Decimal
  commodity : Commodity
deriving DecidableEq

/-- Embeds `quantity * Decimal::new(-1, 0)` from `parse_amount`:
`rust_decimal` multiplication adds the scales (here `scale + 0`) and
multiplies the mantissas, so the product negates the mantissa and keeps
the scale. -/
def mul_neg_one (d : Decimal) : Decimal :=
  ⟨-d.mantissa, d.scale⟩

/-- Embeds the whitespace eating that nom's `ws!` combinator inserts
before every token and after the whole parse (separator class `" \t\r\n"`,
the same class as `is_white_char`). -/
def skip_ws (cs : List Char) : List Char :=
  cs.dropWhile is_white_char

/-- Embeds the first alternative of `parse_amount` from `src/parser.rs`
(inside `ws!`): optional `-`, commodity, quantity; the quantity is negated
via `* Decimal::new(-1, 0)` when the leading minus is present; the
commodity is Left-positioned. -/
def parse_amount_left (cs : List Char) : Option (Amount × List Char) :=
  let s := opt_minus (skip_ws cs)
  (parse_commodity (skip_ws s.2)).bind fun pc =>
    (parse_quantity (skip_ws pc.2)).map fun pq =>
      ({ quantity := if s.1 then mul_neg_one pq.1 else pq.1,
         commodity := { name := pc.1, position := .Left } }, skip_ws pq.2)

/-- Embeds the second alternative of `parse_amount` from `src/parser.rs`
(inside `ws!`): quantity then commodity, sign taken literally, commodity
Right-positioned. -/
def parse_amount_right (cs : List Char) : Option (Amount × List Char) :=
  (parse_quantity (skip_ws cs)).bind fun pq =>
    (parse_commodity (skip_ws pq.2)).map fun pc =>
      ({ quantity := pq.1,
         commodity := { name := pc.1, position := .Right } }, skip_ws pc.2)

/-- Embeds `parse_amount` from `src/parser.rs`: `ws!(alt!(left | right))`,
ordered choice committing to the first alternative that succeeds. -/
def parse_amount (cs : List Char) : Option (Amount × List Char) :=
  match parse_amount_left cs with
  | some r => some r
  | none => parse_amount_right cs

/-!
Decimal digit rendering, used to state the spec's fixed-width
`"YYYY-MM-DD"` date shapes (the claims quantify over those renderings).
-/

/-- Character of the decimal digit `k`. -/
def dchar (k : Nat) : Char := Char.ofNat (48 + k)

/-- Two-digit zero-padded decimal rendering `"MM"` of `n ≤ 99`. -/
def pad2 (n : Nat) : List Char := [dchar (n / 10 % 10), dchar (n % 10)]

/-- Four-digit zero-padded decimal rendering `"YYYY"` of `n ≤ 9999`. -/
def pad4 (n : Nat) : List Char :=
  [dchar (n / 1000 % 10), dchar (n / 100 % 10), dchar (n / 10 % 10), dchar (n % 10)]

/-!
Helper lemmas about the character classes and the token-level parsers.
-/

lemma takeWhile_append_of_all {p : Char → Bool} {xs ys : List Char}
    (h : ∀ x ∈ xs, p x = true) :
    (xs ++ ys).takeWhile p = xs ++ ys.takeWhile p := by
  induction xs with
  | nil => simp
  | cons a l ih =>
    have ha : p a = true := h a (by simp)
    simp [List.takeWhile_cons, ha, ih (fun x hx => h x (by simp [hx]))]

lemma takeWhile_eq_nil_of_head {p : Char → Bool} {ys : List Char}
    (h : ∀ c, ys.head? = some c → p c = false) :
    ys.takeWhile p = [] := by
  cases ys with
  | nil => rfl
  | cons a l => simp [List.takeWhile_cons, h a rfl]

lemma takeWhile_stop {p : Char → Bool} {xs ys : List Char}
    (h : ∀ x ∈ xs, p x = true) (h2 : ∀ c, ys.head? = some c → p c = false) :
    (xs ++ ys).takeWhile p = xs := by
  rw [takeWhile_append_of_all h, takeWhile_eq_nil_of_head h2, List.append_nil]

lemma dropWhile_append_of_all {p : Char → Bool} {xs ys : List Char}
    (h : ∀ x ∈ xs, p x = true) :
    (xs ++ ys).dropWhile p = ys.dropWhile p := by
  induction xs with
  | nil => simp
  | cons a l ih =>
    have ha : p a = true := h a (by simp)
    simp [List.dropWhile_cons, ha, ih (fun x hx => h x (by simp [hx]))]

lemma dropWhile_eq_self_of_head {p : Char → Bool} {ys : List Char}
    (h : ∀ c, ys.head? = some c → p c = false) :
    ys.dropWhile p = ys := by
  cases ys with
  | nil => rfl
  | cons a l => simp [List.dropWhile_cons, h a rfl]

lemma skip_ws_append {w r : List Char} (hw : ∀ c ∈ w, is_white_char c = true)
    (hr : ∀ c, r.head? = some c → is_white_char c = false) :
    skip_ws (w ++ r) = r := by
  rw [skip_ws, dropWhile_append_of_all hw, dropWhile_eq_self_of_head hr]

lemma skip_ws_of_head {r : List Char}
    (hr : ∀ c, r.head? = some c → is_white_char c = false) :
    skip_ws r = r :=
  dropWhile_eq_self_of_head hr

/-- Success case of `take_while_m_n!(n, n, p)` on a known token: an exact
`n`-length prefix all satisfying `p` is consumed, whatever follows. -/
lemma take_while_m_n_exact {n : Nat} {p : Char → Bool} {t rest : List Char}
    (hlen : t.length = n) (ht : ∀ c ∈ t, p c = true) :
    take_while_m_n n n p (t ++ rest) = some (t, rest) := by
  have htake : (t ++ rest).take n = t := by
    rw [← hlen]; exact List.take_left t rest
  have htw : ((t ++ rest).take n).takeWhile p = t := by
    rw [htake, List.takeWhile_eq_self_iff.mpr (by simpa using ht)]
  have hdrop : (t ++ rest).drop t.length = rest := List.drop_left t rest
  simp only [take_while_m_n, htw, hlen, le_refl, if_pos]
  rw [← hlen, hdrop]

/-- Inversion of `take_while_m_n!(m, n, p)`: the consumed part is a prefix
of the input of length between `m` and `n`, all satisfying `p`. -/
lemma take_while_m_n_sound {m n : Nat} {p : Char → Bool} {cs t rest : List Char}
    (h : take_while_m_n m n p cs = some (t, rest)) :
    cs = t ++ rest ∧ m ≤ t.length ∧ t.length ≤ n ∧ ∀ c ∈ t, p c = true := by
  simp only [take_while_m_n] at h
  split at h
  case isFalse => exact absurd h (by simp)
  case isTrue hle =>
    have ht : (cs.take n).takeWhile p = t := congrArg Prod.fst (Option.some.inj h)
    have hrest : cs.drop ((cs.take n).takeWhile p).length = rest :=
      congrArg Prod.snd (Option.some.inj h)
    rw [ht] at hrest
    have hpre : t <+: cs :=
      ht ▸ List.IsPrefix.trans ( List.takeWhile_prefix p) ( List.take_prefix n cs)
    obtain ⟨s, hs⟩ := hpre
    have hseq : s = rest := by rw [← hrest, ← hs, List.drop_left]
    refine ⟨by rw [← hs, hseq], ht ▸ hle, ?_, ?_⟩
    · calc t.length ≤ (cs.take n).length := ht ▸ ( List.takeWhile_prefix p).length_le
        _ ≤ n := by simp [List.length_take]
    · intro c hc
      exact List.mem_takeWhile_imp (by rw [ht]; exact hc)

/-!
Character-class facts used to separate the lexical tokens.
-/

lemma is_digit_ascii {c : Char} (h : is_digit c = true) : c.toNat < 128 := by
  simp only [is_digit, Bool.and_eq_true, decide_eq_true_eq] at h
  omega

lemma digit_not_commodity {c : Char} (h : is_digit c = true) :
    is_commodity_char c = false := by
  simp only [is_digit, Bool.and_eq_true, decide_eq_true_eq] at h
  simp only [is_commodity_char, Bool.or_eq_false_iff, Bool.and_eq_false_iff,
    beq_eq_false_iff_ne, ne_eq, decide_eq_false_iff_not, not_le, not_lt]
  omega

lemma digit_not_white {c : Char} (h : is_digit c = true) :
    is_white_char c = false := by
  simp only [is_digit, Bool.and_eq_true, decide_eq_true_eq] at h
  simp only [is_white_char, Bool.or_eq_false_iff, beq_eq_false_iff_ne, ne_eq]
  omega

lemma white_not_commodity {c : Char} (h : is_white_char c = true) :
    is_commodity_char c = false := by
  simp only [is_white_char, Bool.or_eq_true, beq_iff_eq] at h
  simp only [is_commodity_char, Bool.or_eq_false_iff, Bool.and_eq_false_iff,
    beq_eq_false_iff_ne, ne_eq, decide_eq_false_iff_not, not_le, not_lt]
  omega

lemma commodity_first_not_white {c : Char} (h : is_commodity_first_char c = true) :
    is_white_char c = false := by
  simp only [is_commodity_first_char, Bool.or_eq_true, Bool.and_eq_true,
    decide_eq_true_eq, beq_iff_eq] at h
  simp only [is_white_char, Bool.or_eq_false_iff, beq_eq_false_iff_ne, ne_eq]
  omega

lemma commodity_first_ne_minus {c : Char} (h : is_commodity_first_char c = true) :
    c ≠ '-' := by
  intro hc
  subst hc
  simp [is_commodity_first_char] at h

lemma commodity_first_ne_quote {c : Char} (h : is_commodity_first_char c = true) :
    c ≠ '\"' := by
  intro hc
  subst hc
  simp [is_commodity_first_char] at h

lemma minus_not_commodity : is_commodity_char '-' = false := by decide

lemma minus_not_white : is_white_char '-' = false := by decide

lemma dchar_toNat : ∀ k < 10, (dchar k).toNat = 48 + k := by decide

lemma dchar_is_digit : ∀ k < 10, is_digit (dchar k) = true := by decide

lemma pad2_digits {n : Nat} : ∀ c ∈ pad2 n, is_digit c = true := by
  intro c hc
  simp only [pad2, List.mem_cons, List.mem_singleton, List.not_mem_nil, or_false] at hc
  rcases hc with rfl | rfl
  · exact dchar_is_digit _ (Nat.mod_lt _ (by omega))
  · exact dchar_is_digit _ (Nat.mod_lt _ (by omega))

lemma pad4_digits {n : Nat} : ∀ c ∈ pad4 n, is_digit c = true := by
  intro c hc
  simp only [pad4, List.mem_cons, List.mem_singleton, List.not_mem_nil, or_false] at hc
  rcases hc with rfl | rfl | rfl | rfl <;>
    exact dchar_is_digit _ (Nat.mod_lt _ (by omega))

lemma nat_digits_pad2 {n : Nat} (h : n ≤ 99) : nat_digits (pad2 n) = n := by
  have h1 := dchar_toNat (n / 10 % 10) (Nat.mod_lt _ (by omega))
  have h2 := dchar_toNat (n % 10) (Nat.mod_lt _ (by omega))
  simp only [nat_digits, pad2, List.foldl_cons, List.foldl_nil, h1, h2]
  omega

lemma nat_digits_pad4 {n : Nat} (h : n ≤ 9999) : nat_digits (pad4 n) = n := by
  have h1 := dchar_toNat (n / 1000 % 10) (Nat.mod_lt _ (by omega))
  have h2 := dchar_toNat (n / 100 % 10) (Nat.mod_lt _ (by omega))
  have h3 := dchar_toNat (n / 10 % 10) (Nat.mod_lt _ (by omega))
  have h4 := dchar_toNat (n % 10) (Nat.mod_lt _ (by omega))
  simp only [nat_digits, pad4, List.foldl_cons, List.foldl_nil, h1, h2, h3, h4]
  omega

/-!
Behavior of `numberN` and the separator alternation on rendered dates.
-/

lemma i32_from_str_digits {t : List Char} (hne : t ≠ [])
    (ht : ∀ c ∈ t, is_digit c = true) (hb : nat_digits t ≤ 2147483647) :
    i32_from_str t = some ((nat_digits t : Int)) := by
  rw [i32_from_str, if_pos ⟨hne, ht, hb⟩]

lemma numberN_pad4 {y : Nat} {rest : List Char} (hy : y ≤ 9999) :
    numberN 4 (pad4 y ++ rest) = some ((y : Int), rest) := by
  rw [numberN, take_while_m_n_exact (by rfl) pad4_digits]
  simp only [Option.some_bind]
  rw [i32_from_str_digits (by simp [pad4]) pad4_digits
    (by rw [nat_digits_pad4 hy]; omega)]
  simp [nat_digits_pad4 hy]

lemma numberN_pad2 {m : Nat} {rest : List Char} (hm : m ≤ 99) :
    numberN 2 (pad2 m ++ rest) = some ((m : Int), rest) := by
  rw [numberN, take_while_m_n_exact (by rfl) pad2_digits]
  simp only [Option.some_bind]
  rw [i32_from_str_digits (by simp [pad2]) pad2_digits
    (by rw [nat_digits_pad2 hm]; omega)]
  simp [nat_digits_pad2 hm]

lemma date_sep_cons {s : Char} {rest : List Char}
    (h : s = '-' ∨ s = '/' ∨ s = '.') :
    date_sep (s :: rest) = some (s, rest) := by
  rcases h with rfl | rfl | rfl <;> rfl

lemma numberN_sound {n : Nat} {cs rest : List Char} {v : Int}
    (h : numberN n cs = some (v, rest)) :
    ∃ t, cs = t ++ rest ∧ t.length = n ∧ ∀ c ∈ t, is_digit c = true := by
  rw [numberN] at h
  rw [Option.bind_eq_some] at h
  obtain ⟨⟨t, r⟩, h1, h2⟩ := h
  obtain ⟨hcs, hmn, hnm, hdig⟩ := take_while_m_n_sound h1
  simp only [Option.map_eq_some'] at h2
  obtain ⟨w, _, hw⟩ := h2
  obtain ⟨-, rfl⟩ := Prod.mk.injEq .. ▸ (Prod.mk.inj hw)
  exact ⟨t, hcs, le_antisymm hnm hmn, hdig⟩

lemma date_sep_sound {cs rest : List Char} {c : Char}
    (h : date_sep cs = some (c, rest)) :
    cs = c :: rest ∧ (c = '-' ∨ c = '/' ∨ c = '.') := by
  match cs with
  | [] => exact absurd h (by simp [date_sep])
  | a :: r =>
    rw [date_sep] at h
    split at h
    case isTrue hc =>
      obtain ⟨rfl, rfl⟩ := Prod.mk.inj (Option.some.inj h)
      simp only [Bool.or_eq_true, beq_iff_eq] at hc
      exact ⟨rfl, by tauto⟩
    case isFalse => exact absurd h (by simp)

lemma numberN_pad2_nil {m : Nat} (hm : m ≤ 99) :
    numberN 2 (pad2 m) = some ((m : Int), []) := by
  have h := @numberN_pad2 m [] hm
  simpa using h

/-- Structural parse of a rendered date: any mix of the three separators
is accepted and the digit groups are read back as their numeric values. -/
lemma parse_date_internal_render {y m d : Nat} {s1 s2 : Char}
    (hy : y ≤ 9999) (hm : m ≤ 99) (hd : d ≤ 99)
    (hs1 : s1 = '-' ∨ s1 = '/' ∨ s1 = '.') (hs2 : s2 = '-' ∨ s2 = '/' ∨ s2 = '.') :
    parse_date_internal (pad4 y ++ s1 :: (pad2 m ++ s2 :: pad2 d))
      = some (((y : Int), (m : Int), (d : Int)), []) := by
  rw [parse_date_internal, numberN_pad4 hy]
  simp only [Option.some_bind]
  rw [date_sep_cons hs1]
  simp only [Option.some_bind]
  rw [numberN_pad2 hm]
  simp only [Option.some_bind]
  rw [date_sep_cons hs2]
  simp only [Option.some_bind]
  rw [numberN_pad2_nil hd]
  rfl

lemma days_in_month_le {y m : Int} : days_in_month y m ≤ 31 := by
  rw [days_in_month]
  split
  · split <;> omega
  · split <;> omega

lemma from_ymd_opt_valid {y m d : Int}
    (hm1 : 1 ≤ m) (hm2 : m ≤ 12) (hd1 : 1 ≤ d) (hd2 : d ≤ days_in_month y m)
    (hy1 : -262144 ≤ y) (hy2 : y ≤ 262143) :
    from_ymd_opt y m d = some ⟨y, m, d⟩ := by
  rw [from_ymd_opt, if_pos ⟨hm1, hm2, hd1, hd2, hy1, hy2⟩]

/-- Full `parse_date` on a rendered valid date, for any separator pair. -/
lemma parse_date_render_ok {y m d : Nat} {s1 s2 : Char} (hy : y ≤ 9999)
    (hm1 : 1 ≤ m) (hm2 : m ≤ 12) (hd1 : 1 ≤ d)
    (hd2 : (d : Int) ≤ days_in_month (y : Int) (m : Int))
    (hs1 : s1 = '-' ∨ s1 = '/' ∨ s1 = '.') (hs2 : s2 = '-' ∨ s2 = '/' ∨ s2 = '.') :
    parse_date (pad4 y ++ s1 :: (pad2 m ++ s2 :: pad2 d))
      = .ok ⟨(y : Int), (m : Int), (d : Int)⟩ [] := by
  have hle : days_in_month (y : Int) (m : Int) ≤ 31 := days_in_month_le
  have hd99 : d ≤ 99 := by omega
  have hr := parse_date_internal_render (m := m) hy (by omega) hd99 hs1 hs2
  have hf := from_ymd_opt_valid (y := (y : Int)) (m := (m : Int)) (d := (d : Int))
    (by omega) (by omega) (by omega) hd2 (by omega) (by omega)
  simp only [parse_date, hr, hf]

/-- Inversion of the structural date parse: it consumed exactly ten
ASCII characters (four digits, one separator, two digits, one separator,
two digits). -/
lemma parse_date_internal_sound {cs rest : List Char} {v : Int × Int × Int}
    (h : parse_date_internal cs = some (v, rest)) :
    ∃ pre, cs = pre ++ rest ∧ pre.length = 10 ∧ ∀ c ∈ pre, c.toNat < 128 := by
  rw [parse_date_internal] at h
  rw [Option.bind_eq_some] at h
  obtain ⟨p1, h1, h⟩ := h
  rw [Option.bind_eq_some] at h
  obtain ⟨p2, h2, h⟩ := h
  rw [Option.bind_eq_some] at h
  obtain ⟨p3, h3, h⟩ := h
  rw [Option.bind_eq_some] at h
  obtain ⟨p4, h4, h⟩ := h
  rw [Option.map_eq_some'] at h
  obtain ⟨p5, h5, hv⟩ := h
  obtain ⟨t1, hcs1, hl1, hdig1⟩ := numberN_sound h1
  obtain ⟨hcs2, hsep1⟩ := date_sep_sound h2
  obtain ⟨t2, hcs3, hl2, hdig2⟩ := numberN_sound h3
  obtain ⟨hcs4, hsep2⟩ := date_sep_sound h4
  obtain ⟨t3, hcs5, hl3, hdig3⟩ := numberN_sound h5
  have hrest : p5.2 = rest := congrArg Prod.snd hv
  refine ⟨t1 ++ p2.1 :: (t2 ++ p4.1 :: t3), ?_, ?_, ?_⟩
  · rw [hcs1, hcs2, hcs3, hcs4, hcs5, hrest]
    simp [List.append_assoc]
  · simp [List.length_append, hl1, hl2, hl3]
  · intro c hc
    simp only [List.mem_append, List.mem_cons] at hc
    have hsepa : ∀ s : Char, s = '-' ∨ s = '/' ∨ s = '.' → s.toNat < 128 := by
      intro s hs
      rcases hs with rfl | rfl | rfl <;> decide
    rcases hc with h | h | h | h | h
    · exact is_digit_ascii (hdig1 c h)
    · exact h ▸ hsepa _ hsep1
    · exact is_digit_ascii (hdig2 c h)
    · exact h ▸ hsepa _ hsep2
    · exact is_digit_ascii (hdig3 c h)

/-- Rust's `&s[0..n]` byte slice is total on an ASCII prefix of the right
length. -/
lemma byte_take_all_ascii {pre rest : List Char} (h : ∀ c ∈ pre, c.toNat < 128) :
    byte_take pre.length (pre ++ rest) = some pre := by
  induction pre with
  | nil => simp [byte_take]
  | cons a t ih =>
    have ha : a.toNat < 128 := h a (by simp)
    have hl : len_utf8 a = 1 := by rw [len_utf8, if_pos ha]
    have ih2 := ih (fun c hc => h c (by simp [hc]))
    simp only [List.length_cons, List.cons_append, byte_take, hl, List.append_eq]
    rw [if_pos (by omega)]
    have ht : t.length + 1 - 1 = t.length := by omega
    rw [ht, ih2]

lemma head_cond_cons {p : Char → Bool} {c : Char} {r : List Char} (h : p c = false) :
    ∀ x, (c :: r).head? = some x → p x = false := by
  intro x hx
  simp only [List.head?_cons, Option.some.injEq] at hx
  rwa [← hx]

lemma commodity_stop_ws {w X : List Char} (hw : ∀ c ∈ w, is_white_char c = true)
    (hX : ∀ x, X.head? = some x → is_commodity_char x = false) :
    ∀ x, (w ++ X).head? = some x → is_commodity_char x = false := by
  cases w with
  | nil => simpa using hX
  | cons a r =>
    intro x hx
    rw [List.cons_append, List.head?_cons] at hx
    have hax := Option.some.inj hx
    rw [← hax]
    exact white_not_commodity (hw a (by simp))

lemma string_between_quotes_not_quote {c0 : Char} {cs : List Char} (h : c0 ≠ '\"') :
    string_between_quotes (c0 :: cs) = none := by
  unfold string_between_quotes
  split <;> simp_all

lemma string_between_quotes_ok {content rest : List Char}
    (hne : content ≠ []) (hq : ∀ c ∈ content, c ≠ '\"') :
    string_between_quotes ('\"' :: (content ++ '\"' :: rest)) = some (content, rest) := by
  have htw : (content ++ '\"' :: rest).takeWhile (fun c => c ≠ '\"') = content :=
    takeWhile_stop (fun x hx => by simpa using hq x hx) (head_cond_cons (by simp))
  simp only [string_between_quotes, htw]
  rw [if_neg (by simpa using hne), List.drop_left]
  rfl

lemma commodity_without_quotes_ok {c0 : Char} {t rest : List Char}
    (hc0 : is_commodity_first_char c0 = true)
    (ht : ∀ c ∈ t, is_commodity_char c = true)
    (hrest : ∀ c, rest.head? = some c → is_commodity_char c = false) :
    commodity_without_quotes (c0 :: (t ++ rest)) = some (c0 :: t, rest) := by
  have h1 : take_while_m_n 1 1 is_commodity_first_char (c0 :: (t ++ rest))
      = some ([c0], t ++ rest) := by
    have h := @take_while_m_n_exact 1 is_commodity_first_char [c0] (t ++ rest) (by rfl)
      (by intro c hc; simp only [List.mem_singleton] at hc; rwa [hc])
    simpa using h
  have htw : (t ++ rest).takeWhile is_commodity_char = t := takeWhile_stop ht hrest
  simp only [commodity_without_quotes, h1, htw]
  rw [List.drop_left]
  rfl

lemma parse_commodity_bare {c0 : Char} {t rest : List Char}
    (hc0 : is_commodity_first_char c0 = true)
    (ht : ∀ c ∈ t, is_commodity_char c = true)
    (hrest : ∀ c, rest.head? = some c → is_commodity_char c = false) :
    parse_commodity (c0 :: (t ++ rest)) = some (c0 :: t, rest) := by
  simp only [parse_commodity,
    string_between_quotes_not_quote (commodity_first_ne_quote hc0),
    commodity_without_quotes_ok hc0 ht hrest]

lemma opt_minus_cons_ne {c : Char} {r : List Char} (h : c ≠ '-') :
    opt_minus (c :: r) = (false, c :: r) := by
  unfold opt_minus
  split <;> simp_all

lemma decimal_from_str_minus {q : List Char} :
    decimal_from_str ('-' :: q)
      = (decimal_magnitude q).map (fun p => ⟨-(p.1 : Int), p.2⟩) := rfl

lemma decimal_from_str_cons_ne {c : Char} {r : List Char} (h : c ≠ '-') :
    decimal_from_str (c :: r)
      = (decimal_magnitude (c :: r)).map (fun p => ⟨(p.1 : Int), p.2⟩) := by
  unfold decimal_from_str
  split <;> simp_all

lemma parse_quantity_sound_head {q : List Char} {dec : Decimal} {rest : List Char}
    (h : parse_quantity q = some (dec, rest)) (hqh : q.head? ≠ some '-') :
    ∃ c r, q = c :: r ∧ is_digit c = true := by
  cases q with
  | nil => simp [parse_quantity, quantity_body_len, opt_minus] at h
  | cons c r =>
    refine ⟨c, r, rfl, ?_⟩
    by_contra hd
    rw [Bool.not_eq_true] at hd
    have hc : c ≠ '-' := fun hcc => hqh (by rw [hcc]; rfl)
    have htw : (c :: r).takeWhile is_digit = [] := by simp [List.takeWhile_cons, hd]
    have hbody : quantity_body_len (c :: r) = none := by
      simp [quantity_body_len, htw]
    simp only [parse_quantity, opt_minus_cons_ne hc, cond_false, List.drop_zero,
      hbody, Option.none_bind] at h
    exact Option.noConfusion h

lemma parse_quantity_neg {q : List Char} {dec : Decimal}
    (h : parse_quantity q = some (dec, [])) (hqh : q.head? ≠ some '-') :
    parse_quantity ('-' :: q) = some (⟨-dec.mantissa, dec.scale⟩, []) := by
  obtain ⟨c, r, hqe, hdig⟩ := parse_quantity_sound_head h hqh
  subst hqe
  have hc : c ≠ '-' := fun hcc => hqh (by rw [hcc]; rfl)
  simp only [parse_quantity, opt_minus_cons_ne hc, cond_false, List.drop_zero,
    Nat.zero_add] at h
  rw [Option.bind_eq_some] at h
  obtain ⟨k, hk, h⟩ := h
  rw [Option.map_eq_some'] at h
  obtain ⟨d0, hd0, hpair⟩ := h
  have hdec : d0 = dec := congrArg Prod.fst hpair
  have hdrop : (c :: r).drop k = [] := congrArg Prod.snd hpair
  subst hdec
  have hkge : (c :: r).length ≤ k := List.drop_eq_nil_iff.mp hdrop
  have htake : (c :: r).take k = c :: r := List.take_of_length_le hkge
  rw [htake] at hd0
  rw [decimal_from_str_cons_ne hc, Option.map_eq_some'] at hd0
  obtain ⟨p, hmag, hdep⟩ := hd0
  have h1k : (1 : Nat) + k = k + 1 := by omega
  have htake2 : ('-' :: (c :: r)).take (1 + k) = '-' :: (c :: r) := by
    rw [h1k, List.take_succ_cons, htake]
  have hdrop2 : ('-' :: (c :: r)).drop (1 + k) = [] := by
    rw [h1k, List.drop_succ_cons, hdrop]
  simp only [parse_quantity, opt_minus, cond_true, List.drop_succ_cons, List.drop_zero,
    hk, Option.some_bind, htake2, hdrop2, decimal_from_str_minus, hmag, Option.map_some']
  rw [← hdep]

/-- Evaluation of `parse_amount` on a leading-minus Left-commodity input:
the first alternative commits, the commodity is Left-positioned and the
parsed quantity is negated once via `* Decimal::new(-1, 0)`. -/
lemma parse_amount_leading_minus {c0 : Char} {t w1 w2 qt : List Char} {dec : Decimal}
    (hc0 : is_commodity_first_char c0 = true)
    (ht : ∀ c ∈ t, is_commodity_char c = true)
    (hw1 : ∀ c ∈ w1, is_white_char c = true)
    (hw2 : ∀ c ∈ w2, is_white_char c = true)
    (hqt_comm : ∀ x, qt.head? = some x → is_commodity_char x = false)
    (hqt_white : ∀ x, qt.head? = some x → is_white_char x = false)
    (hq : parse_quantity qt = some (dec, [])) :
    parse_amount ('-' :: (w1 ++ (c0 :: (t ++ (w2 ++ qt)))))
      = some (⟨mul_neg_one dec, ⟨c0 :: t, .Left⟩⟩, []) := by
  have h0 : skip_ws ('-' :: (w1 ++ (c0 :: (t ++ (w2 ++ qt)))))
      = '-' :: (w1 ++ (c0 :: (t ++ (w2 ++ qt)))) :=
    skip_ws_of_head (head_cond_cons minus_not_white)
  have h2 : skip_ws (w1 ++ (c0 :: (t ++ (w2 ++ qt)))) = c0 :: (t ++ (w2 ++ qt)) :=
    skip_ws_append hw1 (head_cond_cons (commodity_first_not_white hc0))
  have h3 : parse_commodity (c0 :: (t ++ (w2 ++ qt))) = some (c0 :: t, w2 ++ qt) :=
    parse_commodity_bare hc0 ht (commodity_stop_ws hw2 hqt_comm)
  have h4 : skip_ws (w2 ++ qt) = qt := skip_ws_append hw2 hqt_white
  have hLeft : parse_amount_left ('-' :: (w1 ++ (c0 :: (t ++ (w2 ++ qt)))))
      = some (⟨mul_neg_one dec, ⟨c0 :: t, .Left⟩⟩, []) := by
    simp only [parse_amount_left, h0, opt_minus, h2, h3, Option.some_bind, h4, hq,
      Option.map_some', if_true]
    rfl
  simp only [parse_amount, hLeft]

/-- Evaluation of `parse_amount` on a Left-commodity input with no leading
minus: the first alternative commits and the parsed quantity is kept as
is (sign included). -/
lemma parse_amount_no_leading_minus {c0 : Char} {t w2 qt : List Char} {dec : Decimal}
    (hc0 : is_commodity_first_char c0 = true)
    (ht : ∀ c ∈ t, is_commodity_char c = true)
    (hw2 : ∀ c ∈ w2, is_white_char c = true)
    (hqt_comm : ∀ x, qt.head? = some x → is_commodity_char x = false)
    (hqt_white : ∀ x, qt.head? = some x → is_white_char x = false)
    (hq : parse_quantity qt = some (dec, [])) :
    parse_amount (c0 :: (t ++ (w2 ++ qt))) = some (⟨dec, ⟨c0 :: t, .Left⟩⟩, []) := by
  have h0 : skip_ws (c0 :: (t ++ (w2 ++ qt))) = c0 :: (t ++ (w2 ++ qt)) :=
    skip_ws_of_head (head_cond_cons (commodity_first_not_white hc0))
  have h1 : opt_minus (c0 :: (t ++ (w2 ++ qt))) = (false, c0 :: (t ++ (w2 ++ qt))) :=
    opt_minus_cons_ne (commodity_first_ne_minus hc0)
  have h3 : parse_commodity (c0 :: (t ++ (w2 ++ qt))) = some (c0 :: t, w2 ++ qt) :=
    parse_commodity_bare hc0 ht (commodity_stop_ws hw2 hqt_comm)
  have h4 : skip_ws (w2 ++ qt) = qt := skip_ws_append hw2 hqt_white
  have hLeft : parse_amount_left (c0 :: (t ++ (w2 ++ qt)))
      = some (⟨dec, ⟨c0 :: t, .Left⟩⟩, []) := by
    simp only [parse_amount_left, h0, h1, h3, Option.some_bind, h4, hq,
      Option.map_some', if_false]
    rfl
  simp only [parse_amount, hLeft]

/-!
Claim theorems.
-/

/-- C2: for every valid date triple `(y, m, d)` with `1 ≤ m ≤ 12` and `d` a
valid day of that month and year (and `y ≤ 9999` so that the `"YYYY"` field
is four digits), `parse_date` succeeds on each of the three 10-character
renderings `"YYYY-MM-DD"`, `"YYYY/MM/DD"` and `"YYYY.MM.DD"`, producing the
same date value `⟨y, m, d⟩` in all three cases with no remaining input. -/
theorem parse_date_separator_equivalence (y m d : Nat) (hy : y ≤ 9999)
    (hm1 : 1 ≤ m) (hm2 : m ≤ 12) (hd1 : 1 ≤ d)
    (hd2 : (d : Int) ≤ days_in_month (y : Int) (m : Int)) :
    parse_date (pad4 y ++ '-' :: (pad2 m ++ '-' :: pad2 d))
      = .ok ⟨(y : Int), (m : Int), (d : Int)⟩ [] ∧
    parse_date (pad4 y ++ '/' :: (pad2 m ++ '/' :: pad2 d))
      = .ok ⟨(y : Int), (m : Int), (d : Int)⟩ [] ∧
    parse_date (pad4 y ++ '.' :: (pad2 m ++ '.' :: pad2 d))
      = .ok ⟨(y : Int), (m : Int), (d : Int)⟩ [] :=
  ⟨parse_date_render_ok hy hm1 hm2 hd1 hd2 (Or.inl rfl) (Or.inl rfl),
   parse_date_render_ok hy hm1 hm2 hd1 hd2 (Or.inr (Or.inl rfl)) (Or.inr (Or.inl rfl)),
   parse_date_render_ok hy hm1 hm2 hd1 hd2 (Or.inr (Or.inr rfl)) (Or.inr (Or.inr rfl))⟩

/-- Witness for C2 at the date 2017-03-24. -/
theorem parse_date_separator_equivalence_witness :
    parse_date (pad4 2017 ++ '-' :: (pad2 3 ++ '-' :: pad2 24))
      = .ok ⟨2017, 3, 24⟩ [] ∧
    parse_date (pad4 2017 ++ '/' :: (pad2 3 ++ '/' :: pad2 24))
      = .ok ⟨2017, 3, 24⟩ [] ∧
    parse_date (pad4 2017 ++ '.' :: (pad2 3 ++ '.' :: pad2 24))
      = .ok ⟨2017, 3, 24⟩ [] :=
  parse_date_separator_equivalence 2017 3 24 (by decide) (by decide) (by decide)
    (by decide) (by decide)

/-- C3: on every input whose prefix structurally matches the date grammar
but whose month/day triple is not a real calendar date, `parse_date` fails
with the `NonExistingDate` error (not the generic syntax error), and the
error reports the original 10-character span of the input (the structural
match consumed exactly those first 10 characters). -/
theorem parse_date_non_existing_date_error (cs rest : List Char) (y m d : Int)
    (hp : parse_date_internal cs = some ((y, m, d), rest))
    (hbad : from_ymd_opt y m d = none) :
    parse_date cs = .nonExistingDate (cs.take 10) ∧ (cs.take 10).length = 10 ∧
      cs = cs.take 10 ++ rest := by
  obtain ⟨pre, hcs, hlen, hascii⟩ := parse_date_internal_sound hp
  have htake : cs.take 10 = pre := by rw [hcs, ← hlen, List.take_left]
  have hbt : byte_take 10 cs = some pre := by
    conv_lhs => rw [hcs, ← hlen]
    exact byte_take_all_ascii hascii
  refine ⟨?_, by rw [htake, hlen], by rw [htake]; exact hcs⟩
  simp only [parse_date, hp, hbad, hbt, htake]

/-- Witness for C3 at the input "2017-13-24" from the spec. -/
theorem parse_date_non_existing_date_error_witness :
    parse_date ("2017-13-24".toList) = .nonExistingDate (("2017-13-24".toList).take 10) ∧
      (("2017-13-24".toList).take 10).length = 10 ∧
      "2017-13-24".toList = ("2017-13-24".toList).take 10 ++ [] :=
  parse_date_non_existing_date_error ("2017-13-24".toList) [] 2017 13 24
    (by decide) (by decide)

/-- C4: `parse_quantity` produces an exact decimal that tracks its scale:
`"0.1"` yields unscaled mantissa 1 at scale exactly 1 (a value equal to one
tenth, with no binary rounding), and `"3"` yields the integer 3 at scale 0,
in both cases consuming the whole input. -/
theorem parse_quantity_exact_scale :
    parse_quantity ("0.1".toList) = some (⟨1, 1⟩, []) ∧
    Decimal.toRat ⟨1, 1⟩ = 1 / 10 ∧
    parse_quantity ("3".toList) = some (⟨3, 0⟩, []) ∧
    Decimal.toRat ⟨3, 0⟩ = 3 := by
  refine ⟨by decide, ?_, by decide, ?_⟩
  · norm_num [Decimal.toRat]
  · norm_num [Decimal.toRat]

/-- C6: the date grammar matches its two separators independently at each
position: for any pair of (possibly different) separators among `-`, `/`,
`.`, the rendered input structurally parses as a date, so in particular
mixed-separator inputs such as "2017-03/24" are accepted by
`parse_date_internal`. -/
theorem parse_date_internal_mixed_separators (y m d : Nat) (s1 s2 : Char)
    (hy : y ≤ 9999) (hm : m ≤ 99) (hd : d ≤ 99)
    (hs1 : s1 = '-' ∨ s1 = '/' ∨ s1 = '.') (hs2 : s2 = '-' ∨ s2 = '/' ∨ s2 = '.') :
    parse_date_internal (pad4 y ++ s1 :: (pad2 m ++ s2 :: pad2 d))
      = some (((y : Int), (m : Int), (d : Int)), []) :=
  parse_date_internal_render hy hm hd hs1 hs2

/-- Witness for C6 at the mixed-separator input "2017-03/24". -/
theorem parse_date_internal_mixed_separators_witness :
    parse_date_internal (pad4 2017 ++ '-' :: (pad2 3 ++ '/' :: pad2 24))
      = some ((2017, 3, 24), []) :=
  parse_date_internal_mixed_separators 2017 3 24 '-' '/' (by decide) (by decide)
    (by decide) (Or.inl rfl) (Or.inr (Or.inl rfl))

/-- C8: `parse_commodity` fails on the empty quoted string: `is_not!("\"")`
requires at least one character between the quotes, and the leading quote
is not a valid bare-token start, so both alternatives fail. -/
theorem parse_commodity_empty_quoted_fails :
    string_between_quotes ("\"\"".toList) = none ∧
    parse_commodity ("\"\"".toList) = none :=
  ⟨by decide, by decide⟩

/-- C5: for every bare commodity token `c0 :: t` and unsigned decimal
quantity `q`, `parse_amount` yields a Left-positioned commodity with the
negated quantity both when the minus sign precedes the commodity
(`"-c q"`, e.g. `"-$1.20"`) and when it precedes the quantity after the
commodity (`"c -q"`, e.g. `"$-1.20"`); whitespace (`w1`, `w2`) between the
sign, commodity and quantity tokens is permitted and ignored. -/
theorem parse_amount_minus_either_side (c0 : Char) (t w1 w2 q : List Char)
    (dec : Decimal)
    (hc0 : is_commodity_first_char c0 = true)
    (ht : ∀ c ∈ t, is_commodity_char c = true)
    (hw1 : ∀ c ∈ w1, is_white_char c = true)
    (hw2 : ∀ c ∈ w2, is_white_char c = true)
    (hq : parse_quantity q = some (dec, []))
    (hqh : q.head? ≠ some '-') :
    parse_amount ('-' :: (w1 ++ (c0 :: (t ++ (w2 ++ q)))))
      = some (⟨⟨-dec.mantissa, dec.scale⟩, ⟨c0 :: t, .Left⟩⟩, []) ∧
    parse_amount (c0 :: (t ++ (w2 ++ ('-' :: q))))
      = some (⟨⟨-dec.mantissa, dec.scale⟩, ⟨c0 :: t, .Left⟩⟩, []) := by
  obtain ⟨qc, qr, hqe, hqd⟩ := parse_quantity_sound_head hq hqh
  have hq_comm : ∀ x, q.head? = some x → is_commodity_char x = false := by
    intro x hx
    rw [hqe] at hx
    simp only [List.head?_cons, Option.some.injEq] at hx
    rw [← hx]
    exact digit_not_commodity hqd
  have hq_white : ∀ x, q.head? = some x → is_white_char x = false := by
    intro x hx
    rw [hqe] at hx
    simp only [List.head?_cons, Option.some.injEq] at hx
    rw [← hx]
    exact digit_not_white hqd
  constructor
  · have h := parse_amount_leading_minus hc0 ht hw1 hw2 hq_comm hq_white hq
    simpa [mul_neg_one] using h
  · exact parse_amount_no_leading_minus hc0 ht hw2
      (head_cond_cons minus_not_commodity) (head_cond_cons minus_not_white)
      (parse_quantity_neg hq hqh)

/-- Witness for C5 at the inputs "-$1.20" and "$-1.20". -/
theorem parse_amount_minus_either_side_witness :
    parse_amount ('-' :: ([] ++ ('$' :: ([] ++ ([] ++ "1.20".toList)))))
      = some (⟨⟨-120, 2⟩, ⟨['$'], .Left⟩⟩, []) ∧
    parse_amount ('$' :: ([] ++ ([] ++ ('-' :: "1.20".toList))))
      = some (⟨⟨-120, 2⟩, ⟨['$'], .Left⟩⟩, []) :=
  parse_amount_minus_either_side '$' [] [] [] ("1.20".toList) ⟨120, 2⟩
    (by decide) (by decide) (by decide) (by decide) (by decide) (by decide)

/-- C7: `parse_commodity` accepts either a double-quote-delimited string,
returning its content with the quotes stripped and no escape processing,
or a bare token of one `is_commodity_first_char` character followed by
zero or more `is_commodity_char` characters; digits are excluded from that
class, so a bare token stops at the first digit — in particular `"$1"`
parses to the commodity `"$"` leaving `"1"` unconsumed. -/
theorem parse_commodity_quoted_or_bare :
    (∀ content rest : List Char, content ≠ [] → (∀ c ∈ content, c ≠ '\"') →
      parse_commodity ('\"' :: (content ++ '\"' :: rest)) = some (content, rest)) ∧
    (∀ (c0 : Char) (t rest : List Char), is_commodity_first_char c0 = true →
      (∀ c ∈ t, is_commodity_char c = true) →
      (∀ c, rest.head? = some c → is_commodity_char c = false) →
      parse_commodity (c0 :: (t ++ rest)) = some (c0 :: t, rest)) ∧
    (∀ c : Char, is_digit c = true → is_commodity_char c = false) ∧
    parse_commodity ("$1".toList) = some (['$'], ['1']) := by
  refine ⟨?_, ?_, ?_, by decide⟩
  · intro content rest hne hq
    simp only [parse_commodity, string_between_quotes_ok hne hq]
  · intro c0 t rest hc0 ht hrest
    exact parse_commodity_bare hc0 ht hrest
  · intro c hc
    exact digit_not_commodity hc

/-- Witness for C7: the quoted commodity "ABC" and the bare token of "ABC 123". -/
theorem parse_commodity_quoted_or_bare_witness :
    parse_commodity ('\"' :: ("ABC".toList ++ '\"' :: [])) = some ("ABC".toList, []) ∧
    parse_commodity ('A' :: ("BC".toList ++ " 123".toList))
      = some ('A' :: "BC".toList, " 123".toList) :=
  ⟨parse_commodity_quoted_or_bare.1 ("ABC".toList) [] (by decide) (by decide),
   parse_commodity_quoted_or_bare.2.1 'A' ("BC".toList) (" 123".toList)
     (by decide) (by decide) (by decide)⟩

/-- C9: in the Left-commodity alternative of `parse_amount`, a minus sign
before the commodity and a minus sign before the quantity compose
multiplicatively: an input with a minus in both positions (e.g. "-$-1.20")
parses successfully to the original positive quantity with a
Left-positioned commodity, the already-negative parsed quantity being
negated once more by the leading sign. -/
theorem parse_amount_double_minus (c0 : Char) (t w1 w2 q : List Char) (dec : Decimal)
    (hc0 : is_commodity_first_char c0 = true)
    (ht : ∀ c ∈ t, is_commodity_char c = true)
    (hw1 : ∀ c ∈ w1, is_white_char c = true)
    (hw2 : ∀ c ∈ w2, is_white_char c = true)
    (hq : parse_quantity q = some (dec, []))
    (hqh : q.head? ≠ some '-') :
    parse_amount ('-' :: (w1 ++ (c0 :: (t ++ (w2 ++ ('-' :: q))))))
      = some (⟨dec, ⟨c0 :: t, .Left⟩⟩, []) := by
  have h := parse_amount_leading_minus hc0 ht hw1 hw2
    (head_cond_cons minus_not_commodity) (head_cond_cons minus_not_white)
    (parse_quantity_neg hq hqh)
  simpa [mul_neg_one] using h

/-- Witness for C9 at the input "-$-1.20". -/
theorem parse_amount_double_minus_witness :
    parse_amount ('-' :: ([] ++ ('$' :: ([] ++ ([] ++ ('-' :: "1.20".toList))))))
      = some (⟨⟨120, 2⟩, ⟨['$'], .Left⟩⟩, []) :=
  parse_amount_double_minus '$' [] [] [] ("1.20".toList) ⟨120, 2⟩
    (by decide) (by decide) (by decide) (by decide) (by decide) (by decide)

/-- C10: whenever the structural date parse succeeds, the original input
holds at least 10 bytes, its first 10 characters are all ASCII (one byte
each), the Rust byte slice `&text.0[0..10]` is total (in-bounds and on a
character boundary), and the `NonExistingDate` error path of `parse_date`
cannot panic. -/
theorem parse_date_span_slice_safe (cs rest : List Char) (v : Int × Int × Int)
    (hp : parse_date_internal cs = some (v, rest)) :
    10 ≤ cs.length ∧ (∀ c ∈ cs.take 10, c.toNat < 128) ∧
      byte_take 10 cs = some (cs.take 10) ∧ parse_date cs ≠ .panicked := by
  obtain ⟨pre, hcs, hlen, hascii⟩ := parse_date_internal_sound hp
  have htake : cs.take 10 = pre := by rw [hcs, ← hlen, List.take_left]
  have hbt : byte_take 10 cs = some pre := by
    conv_lhs => rw [hcs, ← hlen]
    exact byte_take_all_ascii hascii
  obtain ⟨y, md⟩ := v
  obtain ⟨m, d⟩ := md
  have hne : parse_date cs ≠ .panicked := by
    cases hf : from_ymd_opt y m d with
    | some w => simp [parse_date, hp, hf]
    | none => simp [parse_date, hp, hf, hbt]
  exact ⟨by rw [hcs]; simp [hlen], by rw [htake]; exact hascii,
    by rw [htake]; exact hbt, hne⟩

/-- Witness for C10 at the input "2017-13-24" (the invalid-date branch,
where the slice is actually taken). -/
theorem parse_date_span_slice_safe_witness :
    10 ≤ ("2017-13-24".toList).length ∧
      (∀ c ∈ ("2017-13-24".toList).take 10, c.toNat < 128) ∧
      byte_take 10 ("2017-13-24".toList) = some (("2017-13-24".toList).take 10) ∧
      parse_date ("2017-13-24".toList) ≠ .panicked :=
  parse_date_span_slice_safe ("2017-13-24".toList) [] (2017, 13, 24) (by decide)

end LedgerParser
